import Mathlib

/-
Verification of the layout-mode text-state manager
(`src/pypdf/_text_extraction/_layout_mode/_text_state_manager.py`).

Python floats are modelled as rationals (all operations in the source are
field operations, exact on the inputs appearing in the claims).  Python's
`ChainMap` of transform dicts is modelled as a `List Frame` whose head is
`maps[0]` (the innermost, most recently pushed map).  The `Counter` `q_queue`
is modelled as a function `ℕ → ℕ` (a missing key reads as 0, exactly
like `Counter.pop(key, 0)` / `Counter.update`).
-/

namespace Pypdf

/-- One transform dict produced by `TextStateManager.new_transform`: the six
affine coefficients stored under keys 0..5 plus the two scope tags stored
under keys "is_text" and "is_render" (in that insertion order). -/
structure Frame where
  a : ℚ
  b : ℚ
  c : ℚ
  d : ℚ
  e : ℚ
  f : ℚ
  is_text : Bool
  is_render : Bool
deriving DecidableEq, Repr

/-- Python `bool` participating in list equality / arithmetic: `False == 0`,
`True == 1`, so the numeric reading is observationally faithful. -/
def boolVal (b : Bool) : ℚ := if b then 1 else 0

/-- The eight values of a transform dict, `[*maps[0].values()]`: insertion
order is keys 0,1,2,3,4,5 then "is_text", "is_render". -/
def Frame.vals8 (fr : Frame) : List ℚ :=
  [fr.a, fr.b, fr.c, fr.d, fr.e, fr.f, boolVal fr.is_text, boolVal fr.is_render]

/-- The six matrix coefficients of a transform dict, as read by `mult`
through keys 0..5. -/
def Frame.vals6 (fr : Frame) : List ℚ :=
  [fr.a, fr.b, fr.c, fr.d, fr.e, fr.f]

/-- Modelled from the spec: §4.1 MatrixMath `compose(A, B)` ("apply A, then
B").  The pypdf helper `mult` lives in `pypdf/_text_extraction/__init__.py`,
which is not under src/; the spec gives its six component formulas, which we
transcribe here.  Out-of-range indices read as 0 (never exercised: both
arguments always carry at least six entries). -/
def mult (m n : List ℚ) : List ℚ :=
  [m.getD 0 0 * n.getD 0 0 + m.getD 1 0 * n.getD 2 0,
   m.getD 0 0 * n.getD 1 0 + m.getD 1 0 * n.getD 3 0,
   m.getD 2 0 * n.getD 0 0 + m.getD 3 0 * n.getD 2 0,
   m.getD 2 0 * n.getD 1 0 + m.getD 3 0 * n.getD 3 0,
   m.getD 4 0 * n.getD 0 0 + m.getD 5 0 * n.getD 2 0 + n.getD 4 0,
   m.getD 4 0 * n.getD 1 0 + m.getD 5 0 * n.getD 3 0 + n.getD 5 0]

def identity6 : List ℚ := [1, 0, 0, 1, 0, 0]

/-- Modelled from the spec: the font collaborator (`_layout_mode/_font.py`,
not under src/) exposes `encoding` — either a named text codec, modelled by
its decoding function with `none` signalling a `UnicodeDecodeError`, or a
byte-value-to-string table — read-only from this component. -/
inductive FontEncoding where
  | codec (dec : List ℕ → Option String)
  | table (t : List (ℕ × String))

/-- Modelled from the spec: the font collaborator's contract — `encoding`
plus a character-substitution table `char_map` (per-decoded-character
remap), both read-only. -/
structure Font where
  encoding : FontEncoding
  char_map : List (Char × String)

/-- The full `TextStateManager` state.  `transform_stack` head = `maps[0]`
(innermost map).  `q_queue` is the `Counter`; `q_depth` the list of open
scope identifiers. -/
@[ext]
structure State where
  transform_stack : List Frame
  q_queue : ℕ → ℕ
  q_depth : List ℕ
  Tc : ℚ
  Tw : ℚ
  Tz : ℚ
  TL : ℚ
  Ts : ℚ
  font : Option Font
  font_size : Option ℚ

/-- The root frame built by `__init__` via `new_transform()`: identity
coefficients, both tags false. -/
def rootFrame : Frame := ⟨1, 0, 0, 1, 0, 0, false, false⟩

/-- `TextStateManager.__init__`. -/
def initState : State where
  transform_stack := [rootFrame]
  q_queue := fun _ => 0
  q_depth := [0]
  Tc := 0
  Tw := 0
  Tz := 100
  TL := 0
  Ts := 0
  font := none
  font_size := none

/-- The loop condition of `reset_tm`: `maps[0]["is_text"] or
maps[0]["is_render"]`. -/
def taggedFrame (fr : Frame) : Bool := fr.is_text || fr.is_render

/-- `TextStateManager.reset_tm`: pop maps while the top one is tagged
is_text or is_render. -/
def reset_tm (s : State) : State :=
  { s with transform_stack := s.transform_stack.dropWhile taggedFrame }

/-- `TextStateManager.reset_trm`: pop maps while the top one is tagged
is_render. -/
def reset_trm (s : State) : State :=
  { s with transform_stack := s.transform_stack.dropWhile (fun fr => fr.is_render) }

/-- `TextStateManager.add_q`: `q_depth.append(len(q_depth))`. -/
def add_q (s : State) : State :=
  { s with q_depth := s.q_depth ++ [s.q_depth.length] }

/-- `Counter.update([d])`: increment the count of key `d`. -/
def cbump (d : ℕ) (q : ℕ → ℕ) : ℕ → ℕ :=
  fun j => if j = d then q j + 1 else q j

/-- `TextStateManager.add_cm(a, b, c, d, e, f)`: first `reset_tm`, then
`q_queue.update(q_depth[-1:])` (no update when `q_depth` is empty), then push
a new untagged frame. -/
def add_cm (s : State) (a b c d e f : ℚ) : State :=
  let s1 := reset_tm s
  let q' := match s1.q_depth.getLast? with
    | some dep => cbump dep s1.q_queue
    | none => s1.q_queue
  { s1 with
    q_queue := q'
    transform_stack := Frame.mk a b c d e f false false :: s1.transform_stack }

/-- `TextStateManager.remove_q`: `reset_tm`, then
`maps = maps[q_queue.pop(q_depth.pop(), 0):]`.  `q_depth.pop()` on an empty
list raises `IndexError`, modelled as `none`; `Counter.pop(key, 0)` removes
the key (count resets to 0). -/
def remove_q (s : State) : Option State :=
  let s1 := reset_tm s
  match s1.q_depth.getLast? with
  | none => none
  | some dep =>
      some { s1 with
        transform_stack := s1.transform_stack.drop (s1.q_queue dep)
        q_depth := s1.q_depth.dropLast
        q_queue := fun j => if j = dep then 0 else s1.q_queue j }

/-- `TextStateManager._complete_matrix`: a two-element operand list (a `Td`
style operator) is expanded to a full matrix `[1, 0, 0, 1, x, y]`. -/
def complete_matrix (operands : List ℚ) : List ℚ :=
  if operands.length = 2 then [1, 0, 0, 1] ++ operands else operands

/-- Build the frame `new_transform(*operands, is_text, is_render)` from an
operand list; the `getD` defaults mirror `new_transform`'s Python default
arguments (1, 0, 0, 1, 0, 0).  Only meaningful for completed operand lists
of at most six entries — a longer list makes the Python call raise
`TypeError`, an error path modelled by `add_tm_ops` / `add_trm_ops`, which
guard the arity before calling `add_tm` / `add_trm`. -/
def frameOfOperands (operands : List ℚ) (t r : Bool) : Frame :=
  let l := complete_matrix operands
  ⟨l.getD 0 1, l.getD 1 0, l.getD 2 0, l.getD 3 1, l.getD 4 0, l.getD 5 0, t, r⟩

/-- `TextStateManager.add_tm`: push a frame tagged `is_text=True` (no
`reset_tm` first). -/
def add_tm (s : State) (operands : List ℚ) : State :=
  { s with transform_stack := frameOfOperands operands true false :: s.transform_stack }

/-- `TextStateManager.add_trm`: push a frame tagged `is_text=True,
is_render=True`. -/
def add_trm (s : State) (operands : List ℚ) : State :=
  { s with transform_stack := frameOfOperands operands true true :: s.transform_stack }

/-- `TextStateManager.effective_transform`: start from all eight stored
values of `maps[0]` (`[*maps[0].values()]` — including the two tag
booleans), then fold `mult` over `maps[1:]` (each contributing only its six
matrix coefficients, read through keys 0..5).  With a single map the eight
values are returned unchanged, since the loop body never runs.  The `[]`
case is unreachable in Python (a ChainMap always holds at least one map). -/
def effective_transform (s : State) : List ℚ :=
  match s.transform_stack with
  | [] => []
  | m0 :: rest => rest.foldl (fun acc fr => mult acc fr.vals6) m0.vals8

/-- The composition of a stack of frames applying the innermost frame (the
list head, `maps[0]`) first and the root frame last — the right-to-left
reading of the source's fold. -/
def composeAll (l : List Frame) : List ℚ :=
  (l.map Frame.vals6).foldr mult identity6

/-- Follows the spec's words (§4.2): "`effectiveTransform()`: folds all
frames from root outward via `compose`, left-to-right" — the accumulated
matrix starts at the root frame and each step composes it, as left argument
of `compose`, with the next frame outward (root applied first, innermost
frame last).  Stated for the refinement comparison with the
source-translated `effective_transform`. -/
def spec_effective_fold (s : State) : List ℚ :=
  match s.transform_stack.reverse with
  | [] => []
  | r :: rest => rest.foldl (fun acc fr => mult acc fr.vals6) r.vals6

/-- The manager state after `openScope(); pushGraphics(2,0,0,2,0,0);
pushTextMatrix(1,0,0,1,100,100)` — the show-text step of the spec's
end-to-end example. -/
def showStepState : State :=
  add_tm (add_cm (add_q initState) 2 0 0 2 0 0) [1, 0, 0, 1, 100, 100]

/-- The state after `openScope(); openScope(); pushGraphics(2,0,0,2,0,0)` —
"the state after M1 only" of claim C1, with M1 = (2,0,0,2,0,0). -/
def c1StateAfterM1 : State :=
  add_cm (add_q (add_q initState)) 2 0 0 2 0 0

/-- The state after additionally `pushGraphics(3,0,0,3,0,0)` (M2). -/
def c1StateAfterM2 : State :=
  add_cm c1StateAfterM1 3 0 0 3 0 0

/-!  Byte decoding (`TextStateManager.decode`).  The UTF-8 codec invoked by
`bytes((x,)).decode()` and `_b.decode("utf-8", "replace")` is Python
standard-library behaviour, modelled here by a standard UTF-8 decoder. -/

/-- The Unicode replacement character U+FFFD. -/
def replChar : Char := Char.ofNat 0xFFFD

/-- UTF-8 continuation byte test (0x80..0xBF). -/
def isCont (b : ℕ) : Bool := 0x80 ≤ b && b ≤ 0xBF

/-- Models CPython `bytes.decode("utf-8", "replace")`: standard UTF-8
decoding where each maximal invalid subpart is replaced by one U+FFFD —
an invalid or truncated sequence emits one replacement character and
decoding resumes at the first byte that did not extend the sequence.  The
first-continuation ranges per lead byte exclude overlong encodings and
surrogates, as in the standard. -/
def utf8ReplaceChars : List ℕ → List Char
  | [] => []
  | b :: rest =>
    if b < 0x80 then Char.ofNat b :: utf8ReplaceChars rest
    else if 0xC2 ≤ b && b ≤ 0xDF then
      match rest with
      | [] => [replChar]
      | c1 :: rest1 =>
        if isCont c1 then
          Char.ofNat ((b - 0xC0) * 0x40 + (c1 - 0x80)) :: utf8ReplaceChars rest1
        else replChar :: utf8ReplaceChars (c1 :: rest1)
    else if 0xE0 ≤ b && b ≤ 0xEF then
      let lo := if b = 0xE0 then 0xA0 else 0x80
      let hi := if b = 0xED then 0x9F else 0xBF
      match rest with
      | [] => [replChar]
      | c1 :: rest1 =>
        if lo ≤ c1 && c1 ≤ hi then
          match rest1 with
          | [] => [replChar]
          | c2 :: rest2 =>
            if isCont c2 then
              Char.ofNat ((b - 0xE0) * 0x1000 + (c1 - 0x80) * 0x40 + (c2 - 0x80)) ::
                utf8ReplaceChars rest2
            else replChar :: utf8ReplaceChars (c2 :: rest2)
        else replChar :: utf8ReplaceChars (c1 :: rest1)
    else if 0xF0 ≤ b && b ≤ 0xF4 then
      let lo := if b = 0xF0 then 0x90 else 0x80
      let hi := if b = 0xF4 then 0x8F else 0xBF
      match rest with
      | [] => [replChar]
      | c1 :: rest1 =>
        if lo ≤ c1 && c1 ≤ hi then
          match rest1 with
          | [] => [replChar]
          | c2 :: rest2 =>
            if isCont c2 then
              match rest2 with
              | [] => [replChar]
              | c3 :: rest3 =>
                if isCont c3 then
                  Char.ofNat ((b - 0xF0) * 0x40000 + (c1 - 0x80) * 0x1000 +
                      (c2 - 0x80) * 0x40 + (c3 - 0x80)) :: utf8ReplaceChars rest3
                else replChar :: utf8ReplaceChars (c3 :: rest3)
            else replChar :: utf8ReplaceChars (c2 :: rest2)
        else replChar :: utf8ReplaceChars (c1 :: rest1)
    else replChar :: utf8ReplaceChars rest

/-- `_b.decode("utf-8", "replace")` as a string. -/
def utf8Replace (bs : List ℕ) : String := ⟨utf8ReplaceChars bs⟩

/-- The per-byte decoding of the table branch:
`"".join(encoding[x] if x in encoding else bytes((x,)).decode() for x in _b)`.
`bytes((x,)).decode()` equals `chr(x)` precisely when it succeeds, so every
byte looks up its mapped string and falls back to its own code point.  This
string is only produced when every table-absent byte is ASCII — a lone byte
≥ 0x80 is invalid UTF-8, so for such a byte `bytes((x,)).decode()` raises
`UnicodeDecodeError` mid-join instead (handled in `fontDecode`). -/
def tableDecodeStr (t : List (ℕ × String)) (bs : List ℕ) : String :=
  String.join (bs.map fun x => ((t.lookup x).getD (String.singleton (Char.ofNat x))))

/-- Step 4 of decode:
`"".join(char_map[x] if x in char_map else x for x in _text)`. -/
def applyCharMap (cmap : List (Char × String)) (txt : String) : String :=
  String.join (txt.data.map fun ch => ((cmap.lookup ch).getD (String.singleton ch)))

/-- Whether the `try` body of `decode` raises `UnicodeDecodeError`: the named
codec fails on the whole byte sequence, or some table-absent byte is not a
valid lone UTF-8 byte (≥ 0x80). -/
def fontDecodeErr (f : Font) (bs : List ℕ) : Bool :=
  match f.encoding with
  | .codec dec => (dec bs).isNone
  | .table t => !(bs.all fun x => (t.lookup x).isSome || decide (x < 128))

/-- The body of `TextStateManager.decode` once the font is known to be set:
codec branch (`isinstance(encoding, str)`) or byte-table branch, the
`except (UnicodeEncodeError, UnicodeDecodeError)` fallback to
`_b.decode("utf-8", "replace")`, then the `char_map` substitution pass. -/
def fontDecode (f : Font) (bs : List ℕ) : String :=
  let t1 : String :=
    match f.encoding with
    | .codec dec =>
        match dec bs with
        | some t => t
        | none => utf8Replace bs
    | .table t =>
        if bs.all (fun x => (t.lookup x).isSome || decide (x < 128)) then tableDecodeStr t bs
        else utf8Replace bs
  applyCharMap f.char_map t1

/-- `TextStateManager.decode`: raises `PdfReadError` when no font is set,
otherwise decodes via the font's encoding. -/
def decode (s : State) (bs : List ℕ) : Except String String :=
  match s.font with
  | none => Except.error "font not set: is PDF missing a Tf operator?"
  | some f => Except.ok (fontDecode f bs)

/-- Modelled from the spec: the immutable `TextStateParams` snapshot (§3) —
decoded text, font reference, font size, the five scalars and the effective
transform captured at call time (`_text_state_params.py` is not under
src/). -/
structure TextStateParams where
  txt : String
  font : Font
  font_size : ℚ
  Tc : ℚ
  Tw : ℚ
  Tz : ℚ
  TL : ℚ
  Ts : ℚ
  transform : List ℚ

/-- `TextStateManager.text_state_params`: raises `PdfReadError` when font or
font_size is unset (`if self.font is None or self.font_size is None`),
otherwise builds the snapshot, decoding byte input first (here the inner
`self.decode` call cannot raise, the font having just been checked). -/
def text_state_params (s : State) (value : String ⊕ List ℕ) : Except String TextStateParams :=
  match s.font, s.font_size with
  | some f, some fs =>
      Except.ok
        { txt := match value with
            | .inl t => t
            | .inr bs => fontDecode f bs
          font := f
          font_size := fs
          Tc := s.Tc
          Tw := s.Tw
          Tz := s.Tz
          TL := s.TL
          Ts := s.Ts
          transform := effective_transform s }
  | _, _ => Except.error "Font and font_size not set: is PDF missing a Tf operator?"

/-- A `set_state_param` operand: a number or a list, of which element 0 is
used.  Python raises `IndexError` for a recognized operator with an empty
list operand — that error path is modelled by `set_state_param_op`, which
guards it before calling `set_state_param`, so the `getD` below is only
reached with a non-empty list. -/
inductive PyNumOrList where
  | num (v : ℚ)
  | arr (l : List ℚ)
deriving DecidableEq, Repr

/-- `TextStateManager.set_state_param`: returns immediately for any operator
outside {Tc, Tz, Tw, TL, Ts}; otherwise `__setattr__` assigns the matching
scalar attribute. -/
def set_state_param (s : State) (op : String) (value : PyNumOrList) : State :=
  if op ∈ (["Tc", "Tz", "Tw", "TL", "Ts"] : List String) then
    let v : ℚ := match value with
      | .num q => q
      | .arr l => l.getD 0 0
    if op = "Tc" then { s with Tc := v }
    else if op = "Tz" then { s with Tz := v }
    else if op = "Tw" then { s with Tw := v }
    else if op = "TL" then { s with TL := v }
    else { s with Ts := v }
  else s

/-- A font whose byte table is empty, with no character substitutions. -/
def c6Font : Font := ⟨FontEncoding.table [], []⟩

/-- The manager state with `c6Font` selected. -/
def c6State : State := { initState with font := some c6Font }

/-- A font whose byte table is empty and whose `char_map` remaps the
replacement character U+FFFD to "X". -/
def c7Font : Font := ⟨FontEncoding.table [], [(replChar, "X")]⟩

/-- The manager state with `c7Font` selected. -/
def c7State : State := { initState with font := some c7Font }

/-- A font mapping byte 65 to "Z", with no character substitutions. -/
def c6WitnessFont : Font := ⟨FontEncoding.table [(65, "Z")], []⟩

/-- The manager state with `c6WitnessFont` selected. -/
def c6WitnessState : State := { initState with font := some c6WitnessFont }

/-!  Operator sequences.  `GOp` is the alphabet of claim C5's prior
sequences (openScope / pushGraphics only); `Op` is the full operator
alphabet routed to the manager, used for claim C10. -/

/-- An `openScope` ("q") or `pushGraphics` ("cm") operator. -/
inductive GOp where
  | gq
  | gcm (a b c d e f : ℚ)
deriving DecidableEq, Repr

/-- Apply one q/cm operator (both are total). -/
def stepG (s : State) : GOp → State
  | .gq => add_q s
  | .gcm a b c d e f => add_cm s a b c d e f

/-- Run a q/cm operator sequence left to right. -/
def runG : List GOp → State → State
  | [], s => s
  | op :: rest, s => runG rest (stepG s op)

/-- The invariant of states reachable by q/cm sequences: `q_depth` is
`[0, 1, ..., n]`, the counter is zero at and beyond the current depth, and
no frame on the stack is tagged. -/
def InvG (s : State) : Prop :=
  (∃ n, s.q_depth = List.range (n + 1)) ∧
  (∀ j, s.q_depth.length ≤ j → s.q_queue j = 0) ∧
  (∀ fr ∈ s.transform_stack, taggedFrame fr = false)

/-- The full operator alphabet handled by `TextStateManager`: q, Q, cm
(with its raw `*args` operand list), Tm/Td/TD (`add_tm`), text-render
matrices (`add_trm`), the BT/ET and post-show collapses (`reset_tm` /
`reset_trm`), and the scalar text-state operators (`set_state_param`). -/
inductive Op where
  | opq
  | opQ
  | opcm (operands : List ℚ)
  | optm (operands : List ℚ)
  | optrm (operands : List ℚ)
  | opResetTm
  | opResetTrm
  | opSet (name : String) (value : PyNumOrList)
deriving DecidableEq, Repr

/-- The frame built by `new_transform(*args)` for at most eight positional
arguments, as `add_cm` calls it: a seventh or eighth argument lands in the
`is_text` / `is_render` slot.  Python stores that raw numeric value under
the tag key and every branch of this class tests it by truthiness, modelled
here as the Boolean `≠ 0` (the stored raw value would additionally reappear
verbatim only in `effective_transform`'s single-map output, a case no
theorem below evaluates with a non-0/1 tag argument). -/
def cmFrame (operands : List ℚ) : Frame :=
  ⟨operands.getD 0 1, operands.getD 1 0, operands.getD 2 0, operands.getD 3 1,
   operands.getD 4 0, operands.getD 5 0,
   decide (operands.getD 6 0 ≠ 0), decide (operands.getD 7 0 ≠ 0)⟩

/-- `TextStateManager.add_cm(*args)` on a raw operand list: `none` models
the `TypeError` `new_transform` raises for nine or more positional
arguments (note the error fires only after `reset_tm` and the `q_queue`
update have already mutated the Python object — unobservable here since the
exception propagates).  Up to eight arguments succeed, the seventh and
eighth landing in the tag slots (`cmFrame`). -/
def add_cm_ops (s : State) (operands : List ℚ) : Option State :=
  if 9 ≤ operands.length then none
  else
    let s1 := reset_tm s
    let q' := match s1.q_depth.getLast? with
      | some dep => cbump dep s1.q_queue
      | none => s1.q_queue
    some { s1 with
      q_queue := q'
      transform_stack := cmFrame operands :: s1.transform_stack }

/-- `TextStateManager.add_tm` on a raw operand list: `none` models the
`TypeError` raised by `new_transform(*operands, is_text=True)` when the
completed operand list has seven or more entries (the seventh positional
argument collides with the `is_text` keyword); at most six entries succeed,
missing ones filled by `new_transform`'s defaults. -/
def add_tm_ops (s : State) (operands : List ℚ) : Option State :=
  if 7 ≤ (complete_matrix operands).length then none
  else some (add_tm s operands)

/-- `TextStateManager.add_trm` on a raw operand list: same arity behaviour
as `add_tm_ops` (the `is_text` keyword is passed in both calls). -/
def add_trm_ops (s : State) (operands : List ℚ) : Option State :=
  if 7 ≤ (complete_matrix operands).length then none
  else some (add_trm s operands)

/-- `TextStateManager.set_state_param` with its error path: for a
recognized operator with an empty list operand, `value[0]` raises
`IndexError`, modelled as `none`; every other call succeeds (unrecognized
operators return before touching the operand). -/
def set_state_param_op (s : State) (op : String) (value : PyNumOrList) : Option State :=
  if op ∈ (["Tc", "Tz", "Tw", "TL", "Ts"] : List String) then
    match value with
    | .arr [] => none
    | _ => some (set_state_param s op value)
  else some s

/-- Apply one operator; `none` models an uncaught Python exception: the
`IndexError` of `remove_q` on an empty `q_depth`, the `TypeError` of
`new_transform` on over-long operand lists, and the `IndexError` of
`set_state_param` on an empty list operand. -/
def step (s : State) : Op → Option State
  | .opq => some (add_q s)
  | .opQ => remove_q s
  | .opcm operands => add_cm_ops s operands
  | .optm operands => add_tm_ops s operands
  | .optrm operands => add_trm_ops s operands
  | .opResetTm => some (reset_tm s)
  | .opResetTrm => some (reset_trm s)
  | .opSet name value => set_state_param_op s name value

/-- Well-formed operands, as every operator coming from a syntactically
valid content stream has: a cm with at most six operands, a text matrix
whose completed operand list has at most six entries, and a recognized
scalar operator with a number or non-empty list operand.  Outside this set
the Python methods raise (`TypeError` / `IndexError`) or, for a
seven-or-eight-operand cm, build a frame whose tag slots hold operand
values. -/
def wfOp : Op → Bool
  | .opcm operands => decide (operands.length ≤ 6)
  | .optm operands => decide ((complete_matrix operands).length ≤ 6)
  | .optrm operands => decide ((complete_matrix operands).length ≤ 6)
  | .opSet name value =>
      match value with
      | .arr [] => decide (name ∉ (["Tc", "Tz", "Tw", "TL", "Ts"] : List String))
      | _ => true
  | _ => true

/-- The counterexample sequence for claim C10 as frozen: a seven-operand
`cm` between `q` and `Q`.  The seventh operand 1 lands in the `is_text`
slot, so the pushed frame is both counted in `q_queue` and popped early by
`remove_q`'s `reset_tm`; the subsequent slice then removes the root frame. -/
def c10CexProg : List Op := [Op.opq, Op.opcm [1, 0, 0, 1, 0, 0, 1], Op.opQ]

/-- Run an operator sequence left to right, stopping at the first error. -/
def run : List Op → State → Option State
  | [], s => some s
  | op :: rest, s =>
      match step s op with
      | none => none
      | some s' => run rest s'

/-- Number of `openScope` ("q") operators in a sequence. -/
def countOpen (prog : List Op) : ℕ :=
  prog.countP fun op => match op with | .opq => true | _ => false

/-- Number of `closeScope` ("Q") operators in a sequence. -/
def countClose (prog : List Op) : ℕ :=
  prog.countP fun op => match op with | .opQ => true | _ => false

/-- Sum of the counter over keys `0..k-1`. -/
def csum (q : ℕ → ℕ) : ℕ → ℕ
  | 0 => 0
  | k + 1 => csum q k + q k

/-- The run invariant for claim C10: `q_depth` is `[0, ..., k-1]` for its
length `k`; the counter is zero at and beyond `k`; and after collapsing the
tagged prefix the stack is an untagged segment `F` followed by the root
frame, with at least as many frames in `F` as the counter records over the
open scopes. -/
def InvQ (s : State) : Prop :=
  s.q_depth = List.range s.q_depth.length ∧
  (∀ j, s.q_depth.length ≤ j → s.q_queue j = 0) ∧
  ∃ F : List Frame,
    s.transform_stack.dropWhile taggedFrame = F ++ [rootFrame] ∧
    (∀ fr ∈ F, taggedFrame fr = false) ∧
    csum s.q_queue s.q_depth.length ≤ F.length

/-- The witness operator sequence for claim C10:
`q; cm(2,0,0,2,0,0); Q; Q` — one more closeScope than openScope, the
permitted maximum. -/
def c10Prog : List Op := [Op.opq, Op.opcm [2, 0, 0, 2, 0, 0], Op.opQ, Op.opQ]

/-- Claim C3 — counterexample.  On a freshly constructed manager,
`effective_transform` returns the root frame's eight stored values
`[1, 0, 0, 1, 0, 0, 0, 0]` (six identity coefficients followed by the two
scope-tag booleans), which is not equal, as a list, to the six-element
identity `(1, 0, 0, 1, 0, 0)`. -/
theorem c3_counterexample :
    effective_transform initState ≠ [1, 0, 0, 1, 0, 0] := by
  decide

/-- Claim C3 (amended): on a freshly constructed manager,
`effective_transform` returns the root frame's stored values
`[1, 0, 0, 1, 0, 0, 0, 0]` — the identity coefficients followed by the two
scope tags (both false, numerically 0); in particular its first six
components equal the identity matrix (1, 0, 0, 1, 0, 0). -/
theorem c3_fresh_effective_transform :
    effective_transform initState = [1, 0, 0, 1, 0, 0, 0, 0] ∧
    (effective_transform initState).take 6 = [1, 0, 0, 1, 0, 0] := by
  constructor <;> decide

/-!  Matrix algebra lemmas used to settle the effective-transform claims. -/

theorem mult_length (m n : List ℚ) : (mult m n).length = 6 := rfl

/-- `mult` only reads indices 0..5 of its left argument, so the two tag
values at indices 6 and 7 of `maps[0].values()` never influence a fold step. -/
theorem mult_vals8 (fr : Frame) (y : List ℚ) : mult fr.vals8 y = mult fr.vals6 y := rfl

theorem mult_assoc' (a b c : List ℚ) : mult (mult a b) c = mult a (mult b c) := by
  simp only [mult, List.getD_cons_zero, List.getD_cons_succ, List.cons.injEq, and_true]
  refine ⟨by ring, by ring, by ring, by ring, by ring, by ring⟩

theorem mult_id6_right (a : List ℚ) (h : a.length = 6) : mult a identity6 = a := by
  match a, h with
  | [x0, x1, x2, x3, x4, x5], _ =>
    simp only [mult, identity6, List.getD_cons_zero, List.getD_cons_succ,
      List.cons.injEq, and_true]
    refine ⟨by ring, by ring, by ring, by ring, by ring, by ring⟩

theorem foldl_mult_eq_foldr (L : List (List ℚ)) :
    ∀ a : List ℚ, a.length = 6 → L.foldl mult a = mult a (L.foldr mult identity6) := by
  induction L with
  | nil => intro a ha; simpa using (mult_id6_right a ha).symm
  | cons x L ih =>
      intro a _
      calc (x :: L).foldl mult a = L.foldl mult (mult a x) := rfl
        _ = mult (mult a x) (L.foldr mult identity6) := ih (mult a x) (mult_length a x)
        _ = mult a (mult x (L.foldr mult identity6)) := mult_assoc' ..
        _ = mult a ((x :: L).foldr mult identity6) := rfl

/-- Claim C4 — counterexample.  At the show-text state of the spec's own
end-to-end example the code's `effective_transform` yields
(2, 0, 0, 2, 200, 200) while the spec's left-to-right root-outward fold
yields (2, 0, 0, 2, 100, 100): the code applies the innermost frame first
and the root last, the opposite composition order. -/
theorem c4_counterexample :
    effective_transform showStepState ≠ spec_effective_fold showStepState := by
  norm_num [showStepState, effective_transform, spec_effective_fold, add_tm, add_cm, add_q,
    reset_tm, initState, rootFrame, frameOfOperands, complete_matrix, mult,
    Frame.vals8, Frame.vals6, boolVal, taggedFrame, List.dropWhile]

/-- Claim C4 (amended): for every stack holding at least two frames,
`effective_transform` equals the fold of the frames via `compose` proceeding
from the innermost frame (`maps[0]`) outward to the root — the innermost
frame is applied first, the root last (for a single-frame stack the eight
stored values of that frame, tags included, are returned instead).  The call
is a pure function of the state: it mutates nothing. -/
theorem c4_effective_transform_composes_inner_to_root (s : State)
    (h : 2 ≤ s.transform_stack.length) :
    effective_transform s = composeAll s.transform_stack := by
  match hs : s.transform_stack, h with
  | m0 :: m1 :: rest, _ =>
    have he : effective_transform s = (m1 :: rest).foldl (fun acc fr => mult acc fr.vals6) m0.vals8 := by
      simp only [effective_transform, hs]
    rw [he]
    calc (m1 :: rest).foldl (fun acc fr => mult acc fr.vals6) m0.vals8
        = ((m1 :: rest).map Frame.vals6).foldl mult m0.vals8 := by
          rw [List.foldl_map]
      _ = (rest.map Frame.vals6).foldl mult (mult m0.vals8 m1.vals6) := rfl
      _ = (rest.map Frame.vals6).foldl mult (mult m0.vals6 m1.vals6) := by
          rw [mult_vals8]
      _ = mult (mult m0.vals6 m1.vals6) ((rest.map Frame.vals6).foldr mult identity6) :=
          foldl_mult_eq_foldr _ _ (mult_length ..)
      _ = mult m0.vals6 (mult m1.vals6 ((rest.map Frame.vals6).foldr mult identity6)) :=
          mult_assoc' ..
      _ = composeAll (m0 :: m1 :: rest) := rfl

/-- Claim C4 — witness for the amended theorem at the show-text state of the
end-to-end example (a three-frame stack). -/
theorem c4_witness :
    2 ≤ showStepState.transform_stack.length ∧
    effective_transform showStepState = composeAll showStepState.transform_stack :=
  ⟨by decide, c4_effective_transform_composes_inner_to_root showStepState (by decide)⟩

/-!  C1: nested scopes `q; q; cm M1; cm M2; Q; Q`. -/

/-- Claim C1 — counterexample.  With M1 = (2,0,0,2,0,0) and
M2 = (3,0,0,3,0,0), after `q; q; cm M1; cm M2` the first `Q` drops BOTH cm
frames — both pushes were recorded against the innermost scope identifier —
leaving the root-only stack (effective transform `[1,0,0,1,0,0,0,0]`), not
the state after M1 (effective transform `[2,0,0,2,0,0]`). -/
theorem c1_counterexample :
    (remove_q c1StateAfterM2).map effective_transform ≠
      some (effective_transform c1StateAfterM1) := by
  have h1 : (remove_q c1StateAfterM2).map effective_transform = some [1, 0, 0, 1, 0, 0, 0, 0] := by
    norm_num [c1StateAfterM2, c1StateAfterM1, effective_transform, add_cm, add_q, reset_tm,
      remove_q, initState, rootFrame, mult, cbump,
      Frame.vals8, Frame.vals6, boolVal, taggedFrame, List.dropWhile]
  have h2 : effective_transform c1StateAfterM1 = [2, 0, 0, 2, 0, 0] := by
    norm_num [c1StateAfterM1, effective_transform, add_cm, add_q, reset_tm,
      initState, rootFrame, mult, cbump,
      Frame.vals8, Frame.vals6, boolVal, taggedFrame, List.dropWhile]
  rw [h1, h2]
  norm_num

/-- Claim C1 (amended): for every M1 and M2, after
`openScope(); openScope(); pushGraphics(M1); pushGraphics(M2)` the first
`closeScope()` discards both M1 and M2 — both pushes are counted against the
innermost open scope — restoring the stack to the root frame alone, whose
`effective_transform` is the eight-value identity `[1,0,0,1,0,0,0,0]`; a
second `closeScope()` removes nothing further and leaves the same value. -/
theorem c1_nested_scopes_first_close_discards_both
    (a b c d e f a' b' c' d' e' f' : ℚ) :
    (remove_q (add_cm (add_cm (add_q (add_q initState)) a b c d e f) a' b' c' d' e' f')).map
        effective_transform = some [1, 0, 0, 1, 0, 0, 0, 0] ∧
    ((remove_q (add_cm (add_cm (add_q (add_q initState)) a b c d e f) a' b' c' d' e' f')).bind
        remove_q).map effective_transform = some [1, 0, 0, 1, 0, 0, 0, 0] :=
  ⟨rfl, rfl⟩

/-!  C2: end-to-end `q; cm(2,0,0,2,0,0); Tm(1,0,0,1,100,100); <show>; Q`. -/

/-- Claim C2 — counterexample.  After the `closeScope()` of the end-to-end
example the stack is the root frame alone and `effective_transform` returns
its eight stored values `[1,0,0,1,0,0,0,0]`, which is not equal, as a list,
to the six-element identity (1,0,0,1,0,0) the claim states. -/
theorem c2_counterexample :
    (remove_q showStepState).map effective_transform ≠ some [1, 0, 0, 1, 0, 0] := by
  norm_num [showStepState, effective_transform, add_tm, add_cm, add_q, reset_tm, remove_q,
    initState, rootFrame, frameOfOperands, complete_matrix, mult, cbump,
    Frame.vals8, Frame.vals6, boolVal, taggedFrame, List.dropWhile]
  decide

/-- Claim C2 (amended): for the operator sequence `openScope();
pushGraphics(2,0,0,2,0,0); pushTextMatrix(1,0,0,1,100,100)` applied to a
fresh manager, `effective_transform` at the show-text step equals
(2, 0, 0, 2, 200, 200); the subsequent `closeScope()` pops the text frame
and the cm frame, leaving the root frame alone, so `effective_transform`
then returns the root's eight stored values `[1,0,0,1,0,0,0,0]` — its first
six components are the identity matrix. -/
theorem c2_end_to_end :
    effective_transform showStepState = [2, 0, 0, 2, 200, 200] ∧
    (remove_q showStepState).map effective_transform = some [1, 0, 0, 1, 0, 0, 0, 0] ∧
    (remove_q showStepState).map (fun s => (effective_transform s).take 6) =
      some [1, 0, 0, 1, 0, 0] := by
  refine ⟨?_, ?_, ?_⟩ <;>
    norm_num [showStepState, effective_transform, add_tm, add_cm, add_q, reset_tm, remove_q,
      initState, rootFrame, frameOfOperands, complete_matrix, mult, cbump,
      Frame.vals8, Frame.vals6, boolVal, taggedFrame, List.dropWhile]

/-!  C6 and C7: `TextStateManager.decode`. -/

/-- When the decode body raises `UnicodeDecodeError`, the `except` handler
re-decodes the whole input as UTF-8 with replacement characters, and the
`char_map` pass still applies to the recovered text. -/
theorem fontDecode_on_err (f : Font) (bs : List ℕ) (herr : fontDecodeErr f bs = true) :
    fontDecode f bs = applyCharMap f.char_map (utf8Replace bs) := by
  unfold fontDecodeErr at herr
  unfold fontDecode
  cases he : f.encoding with
  | codec dec =>
      simp only [he] at herr ⊢
      cases hd : dec bs with
      | none => simp [hd]
      | some t => simp [hd] at herr
  | table t =>
      simp only [he] at herr ⊢
      simp only [Bool.not_eq_true'] at herr
      simp [herr]

/-- Claim C6 — counterexample.  With an (empty) byte-value-to-string table
and input `[0x80]`, the absent byte 0x80 does not contribute `chr(0x80)`:
`bytes((0x80,)).decode()` raises (a lone byte ≥ 0x80 is invalid UTF-8), so
the whole input is re-decoded as UTF-8 with replacement and the result is
the replacement character U+FFFD instead. -/
theorem c6_counterexample :
    decode c6State [128] = Except.ok "�" ∧
    decode c6State [128] ≠ Except.ok (String.singleton (Char.ofNat 128)) :=
  ⟨rfl, fun h => absurd (Except.ok.inj h) (by decide)⟩

/-- Claim C6 (amended): when the font exposes a byte-value-to-string table
and every byte absent from the table is < 128 (ASCII), decode processes the
input byte by byte — each present byte contributes its mapped string, each
absent byte the one-character string of its own code point — and the
character-substitution pass is applied to the joined result.  (A
table-absent byte ≥ 128 instead aborts the per-byte pass with
`UnicodeDecodeError` and the whole input is re-decoded as UTF-8 with
replacement characters.) -/
theorem c6_table_decode_byte_by_byte (s : State) (f : Font) (t : List (ℕ × String))
    (bs : List ℕ) (hf : s.font = some f) (ht : f.encoding = FontEncoding.table t)
    (hb : ∀ x ∈ bs, (t.lookup x).isSome = true ∨ x < 128) :
    decode s bs = Except.ok (applyCharMap f.char_map (tableDecodeStr t bs)) := by
  have hall : (bs.all fun x => (t.lookup x).isSome || decide (x < 128)) = true := by
    rw [List.all_eq_true]
    intro x hx
    rcases hb x hx with h | h
    · simp [h]
    · simp [h]
  simp [decode, hf, fontDecode, ht, hall]

/-- Claim C6 — witness: table maps byte 65 to "Z"; byte 66 is absent and
ASCII, contributing "B"; the decoded result is "ZB". -/
theorem c6_witness :
    (∀ x ∈ ([65, 66] : List ℕ),
      (([(65, "Z")] : List (ℕ × String)).lookup x).isSome = true ∨ x < 128) ∧
    decode c6WitnessState [65, 66] = Except.ok "ZB" :=
  ⟨by decide, by
    rw [c6_table_decode_byte_by_byte c6WitnessState c6WitnessFont [(65, "Z")] [65, 66]
      rfl rfl (by decide)]
    rfl⟩

/-- Claim C7 — counterexample.  The input `[0x80]` is undecodable under the
font (its empty table has no entry and 0x80 is not a valid lone UTF-8 byte),
decode does not raise — but the result is "X", carrying no replacement
marker: the font's `char_map` remaps U+FFFD away after the UTF-8-replace
recovery. -/
theorem c7_counterexample :
    fontDecodeErr c7Font [128] = true ∧
    decode c7State [128] = Except.ok "X" ∧
    replChar ∉ ("X" : String).data :=
  ⟨by decide, rfl, by decide⟩

/-- Claim C7 (amended): for every byte sequence and every font, when the
font reference is set `decode` returns a string without raising; a decode
error under the font's codec (or byte table) is recovered locally by
re-decoding the whole input as UTF-8 with replacement characters and then
applying the character-substitution table — so a replacement marker appears
in the result when the input is not valid UTF-8 and the substitution table
does not remap the marker, not unconditionally. -/
theorem c7_decode_never_raises (s : State) (f : Font) (bs : List ℕ)
    (hf : s.font = some f) :
    decode s bs = Except.ok (fontDecode f bs) ∧
    (fontDecodeErr f bs = true →
      decode s bs = Except.ok (applyCharMap f.char_map (utf8Replace bs))) := by
  refine ⟨by simp [decode, hf], fun herr => ?_⟩
  simp [decode, hf, fontDecode_on_err f bs herr]

/-- Claim C7 — witness: a set font whose table rejects `[0x80]`; the decode
error is recovered into the char-mapped UTF-8-replace text, without
raising. -/
theorem c7_witness :
    decode c7State [128] = Except.ok (fontDecode c7Font [128]) ∧
    decode c7State [128] = Except.ok (applyCharMap c7Font.char_map (utf8Replace [128])) :=
  ⟨(c7_decode_never_raises c7State c7Font [128] rfl).1,
   (c7_decode_never_raises c7State c7Font [128] rfl).2 (by decide)⟩

/-!  C8: `text_state_params`. -/

/-- Claim C8: `text_state_params` fails with the `PdfReadError` "Font and
font_size not set" exactly when the font or the font_size is unset at call
time (so in particular on any state reached before a font-selection
operator, where both are still `None`); no snapshot is produced in that
case, and — the operation being a pure function of the state in this
embedding, as in the source, which only reads attributes — no manager state
is changed. -/
theorem c8_snapshot_error_iff (s : State) (value : String ⊕ List ℕ) :
    (∃ e, text_state_params s value = Except.error e) ↔
      (s.font = none ∨ s.font_size = none) := by
  cases hf : s.font <;> cases hfs : s.font_size <;> simp [text_state_params, hf, hfs]

/-!  C9: `set_state_param`. -/

/-- Claim C9: for every operator name outside {Tc, Tz, Tw, TL, Ts} and every
value, `set_state_param` returns the state unchanged — all five scalars and
every other component (transform stack, nesting records, font, font_size)
are untouched, and no error is raised. -/
theorem c9_set_state_param_unrecognized_noop (s : State) (op : String)
    (value : PyNumOrList) (h : op ∉ (["Tc", "Tz", "Tw", "TL", "Ts"] : List String)) :
    set_state_param s op value = s := by
  simp [set_state_param, h]

/-- Claim C9 — witness at the unrecognized operator "Tf". -/
theorem c9_witness :
    "Tf" ∉ (["Tc", "Tz", "Tw", "TL", "Ts"] : List String) ∧
    set_state_param initState "Tf" (PyNumOrList.num 12) = initState :=
  ⟨by decide,
   c9_set_state_param_unrecognized_noop initState "Tf" (PyNumOrList.num 12) (by decide)⟩

/-!  C5: `openScope(); pushGraphics(M); closeScope()` round-trip. -/

theorem dropWhile_eq_self_of_none {α : Type} (p : α → Bool) (l : List α)
    (h : ∀ x ∈ l, p x = false) : l.dropWhile p = l := by
  cases l with
  | nil => rfl
  | cons x xs =>
      rw [List.dropWhile_cons, h x (List.mem_cons_self x xs)]
      simp

/-- After `q; cm M; Q` from any state satisfying `InvG`, the manager state —
not just the effective transform — is restored exactly: the new scope
identifier is fresh (its counter entry is zero), so the close pops exactly
the one frame the push added and drains the entry back to zero. -/
theorem qcmQ_roundtrip (s : State) (h : InvG s) (a b c d e f : ℚ) :
    remove_q (add_cm (add_q s) a b c d e f) = some s := by
  obtain ⟨⟨n, hd⟩, h2, h3⟩ := h
  have hlen : s.q_depth.length = n + 1 := by rw [hd]; exact List.length_range _
  have hstack := dropWhile_eq_self_of_none taggedFrame s.transform_stack h3
  have hQtop : s.q_queue (n + 1) = 0 := h2 (n + 1) (le_of_eq hlen)
  have hq : (fun j => if j = n + 1 then 0 else if j = n + 1 then s.q_queue j + 1 else s.q_queue j)
      = s.q_queue := by
    funext j
    by_cases hj : j = n + 1
    · simp [hj, hQtop]
    · simp [hj]
  simp only [remove_q, add_cm, add_q, reset_tm, hstack, hd, hlen, List.length_range,
    List.getLast?_concat, List.dropLast_concat, List.dropWhile_cons, taggedFrame,
    Bool.or_false, cbump, if_true, Bool.false_eq_true, if_false, hQtop, Nat.zero_add,
    List.drop_succ_cons, List.drop_zero, hq]
  rw [← hd]

theorem invG_initState : InvG initState := by
  refine ⟨⟨0, by decide⟩, fun j hj => rfl, ?_⟩
  intro fr hfr
  have : fr = rootFrame := by simpa [initState] using hfr
  simp [this, taggedFrame, rootFrame]

theorem invG_stepG (s : State) (op : GOp) (h : InvG s) : InvG (stepG s op) := by
  obtain ⟨⟨n, hd⟩, h2, h3⟩ := h
  have hlen : s.q_depth.length = n + 1 := by rw [hd]; exact List.length_range _
  cases op with
  | gq =>
      refine ⟨⟨n + 1, ?_⟩, ?_, h3⟩
      · show s.q_depth ++ [s.q_depth.length] = _
        rw [hd, List.length_range, ← List.range_succ]
      · intro j hj
        apply h2
        have : s.q_depth.length + 1 ≤ j := by
          simpa [stepG, add_q] using hj
        omega
  | gcm a b c d e f =>
      have hstack := dropWhile_eq_self_of_none taggedFrame s.transform_stack h3
      have hlast : s.q_depth.getLast? = some n := by
        rw [hd, List.range_succ, List.getLast?_concat]
      refine ⟨⟨n, ?_⟩, ?_, ?_⟩
      · simpa [stepG, add_cm, reset_tm] using hd
      · intro j hj
        have hj' : s.q_depth.length ≤ j := by
          simpa [stepG, add_cm, reset_tm] using hj
        have hjn : j ≠ n := by omega
        simp [stepG, add_cm, reset_tm, hlast, cbump, hjn, h2 j hj']
      · intro fr hfr
        simp only [stepG, add_cm, reset_tm, hstack] at hfr
        rcases List.mem_cons.mp hfr with rfl | hfr
        · rfl
        · exact h3 fr hfr

theorem invG_runG (prog : List GOp) : ∀ s : State, InvG s → InvG (runG prog s) := by
  induction prog with
  | nil => intro s h; exact h
  | cons op rest ih => intro s h; exact ih _ (invG_stepG s op h)

/-- Claim C5: for every matrix M and every nesting depth — that is, starting
from any state reached from a fresh manager by a prior sequence of
openScope/pushGraphics operators — the sequence `openScope();
pushGraphics(M); closeScope()` restores `effective_transform` to exactly its
pre-push value (indeed the whole manager state is restored, the witness
state `s'` being the pre-push state itself). -/
theorem c5_push_close_restores_effective_transform (prog : List GOp) (a b c d e f : ℚ) :
    ∃ s', remove_q (add_cm (add_q (runG prog initState)) a b c d e f) = some s' ∧
      effective_transform s' = effective_transform (runG prog initState) :=
  ⟨runG prog initState,
   qcmQ_roundtrip (runG prog initState) (invG_runG prog initState invG_initState) a b c d e f,
   rfl⟩

theorem dropWhile_dropWhile_of_imp {α : Type} (p q : α → Bool)
    (himp : ∀ x, p x = true → q x = true) (l : List α) :
    (l.dropWhile p).dropWhile q = l.dropWhile q := by
  induction l with
  | nil => rfl
  | cons x xs ih =>
      cases hp : p x with
      | true =>
          rw [List.dropWhile_cons, hp, if_pos rfl, ih, List.dropWhile_cons, himp x hp]
          simp
      | false => rw [List.dropWhile_cons, hp]; simp

theorem csum_congr (Q Q' : ℕ → ℕ) (k : ℕ) (h : ∀ j < k, Q' j = Q j) :
    csum Q' k = csum Q k := by
  induction k with
  | zero => rfl
  | succ k ih =>
      rw [csum, csum, ih (fun j hj => h j (Nat.lt_succ_of_lt hj)), h k (Nat.lt_succ_self k)]

theorem csum_cbump (Q : ℕ → ℕ) (d : ℕ) : ∀ k, d < k → csum (cbump d Q) k = csum Q k + 1 := by
  intro k
  induction k with
  | zero => intro h; omega
  | succ k ih =>
      intro hd
      rcases Nat.lt_succ_iff_lt_or_eq.mp hd with h | h
      · rw [csum, csum, ih h, cbump]
        have : ¬(k = d) := by omega
        simp [this]
        omega
      · subst h
        rw [csum, csum, cbump]
        have : csum (cbump d Q) d = csum Q d :=
          csum_congr Q (cbump d Q) d (fun j hj => by simp [cbump]; omega)
        simp [this]
        omega


theorem taggedFrame_rootFrame : taggedFrame rootFrame = false := rfl

theorem invQ_initState : InvQ initState := by
  refine ⟨by decide, fun j hj => rfl, [], by decide, by simp, by decide⟩

theorem invQ_add_q (s : State) (h : InvQ s) :
    InvQ (add_q s) ∧ (add_q s).q_depth.length = s.q_depth.length + 1 := by
  obtain ⟨hd, h2, F, hF, hFun, hcs⟩ := h
  have hlen : (add_q s).q_depth.length = s.q_depth.length + 1 := by
    simp [add_q]
  refine ⟨⟨?_, ?_, F, hF, hFun, ?_⟩, hlen⟩
  · show s.q_depth ++ [s.q_depth.length] = List.range (s.q_depth ++ [s.q_depth.length]).length
    rw [List.length_append, List.length_singleton]
    conv_lhs => rw [hd]
    rw [List.length_range, ← List.range_succ]
  · intro j hj
    rw [hlen] at hj
    exact h2 j (by omega)
  · show csum s.q_queue (add_q s).q_depth.length ≤ F.length
    rw [hlen, csum, h2 s.q_depth.length (le_refl _)]
    simpa using hcs


theorem invQ_add_cm (s : State) (h : InvQ s) (a b c d e f : ℚ) :
    InvQ (add_cm s a b c d e f) ∧
      (add_cm s a b c d e f).q_depth.length = s.q_depth.length := by
  obtain ⟨hd, h2, F, hF, hFun, hcs⟩ := h
  have hdep : (add_cm s a b c d e f).q_depth = s.q_depth := by
    simp [add_cm, reset_tm]
  have hstack : (add_cm s a b c d e f).transform_stack =
      Frame.mk a b c d e f false false :: (F ++ [rootFrame]) := by
    simp [add_cm, reset_tm, hF]
  have hdw : (add_cm s a b c d e f).transform_stack.dropWhile taggedFrame =
      (Frame.mk a b c d e f false false :: F) ++ [rootFrame] := by
    rw [hstack, List.dropWhile_cons]
    simp [taggedFrame]
  have hFun' : ∀ fr ∈ Frame.mk a b c d e f false false :: F, taggedFrame fr = false := by
    intro fr hfr
    rcases List.mem_cons.mp hfr with rfl | hfr
    · rfl
    · exact hFun fr hfr
  cases hcase : s.q_depth.getLast? with
  | none =>
      have hqq : (add_cm s a b c d e f).q_queue = s.q_queue := by
        simp [add_cm, reset_tm, hcase]
      refine ⟨⟨?_, ?_, Frame.mk a b c d e f false false :: F, hdw, hFun', ?_⟩, by rw [hdep]⟩
      · rw [hdep]; exact hd
      · intro j hj; rw [hdep] at hj; rw [hqq]; exact h2 j hj
      · rw [hdep, hqq]
        calc csum s.q_queue s.q_depth.length ≤ F.length := hcs
          _ ≤ (Frame.mk a b c d e f false false :: F).length := by simp
  | some dep =>
      have hqq : (add_cm s a b c d e f).q_queue = cbump dep s.q_queue := by
        simp [add_cm, reset_tm, hcase]
      have hne : s.q_depth ≠ [] := by
        intro hnil; rw [hnil] at hcase; simp at hcase
      have hdlt : dep = s.q_depth.length - 1 ∧ 0 < s.q_depth.length := by
        constructor
        · have : s.q_depth.getLast? = some (s.q_depth.length - 1) := by
            conv_lhs => rw [hd]
            have h1 : 0 < s.q_depth.length := List.length_pos.mpr hne
            have : List.range s.q_depth.length =
                List.range (s.q_depth.length - 1) ++ [s.q_depth.length - 1] := by
              conv_lhs => rw [show s.q_depth.length = (s.q_depth.length - 1) + 1 by omega]
              rw [List.range_succ]
            rw [this, List.getLast?_concat]
          rw [this] at hcase
          exact (Option.some.inj hcase).symm
        · exact List.length_pos.mpr hne
      obtain ⟨hdepeq, hpos⟩ := hdlt
      refine ⟨⟨?_, ?_, Frame.mk a b c d e f false false :: F, hdw, hFun', ?_⟩, by rw [hdep]⟩
      · rw [hdep]; exact hd
      · intro j hj
        rw [hdep] at hj
        rw [hqq, cbump]
        have : ¬(j = dep) := by omega
        simp [this]
        exact h2 j hj
      · rw [hdep, hqq]
        rw [csum_cbump s.q_queue dep s.q_depth.length (by omega)]
        calc csum s.q_queue s.q_depth.length + 1 ≤ F.length + 1 := by omega
          _ = (Frame.mk a b c d e f false false :: F).length := by simp


theorem invQ_remove_q (s : State) (h : InvQ s) (hne : s.q_depth ≠ []) :
    ∃ s₁, remove_q s = some s₁ ∧ InvQ s₁ ∧
      s₁.q_depth.length + 1 = s.q_depth.length := by
  obtain ⟨hd, h2, F, hF, hFun, hcs⟩ := h
  have hpos : 0 < s.q_depth.length := List.length_pos.mpr hne
  set k := s.q_depth.length - 1 with hk
  have hklen : s.q_depth.length = k + 1 := by omega
  have hrange : s.q_depth = List.range k ++ [k] := by
    rw [hd, hklen, List.range_succ]
  have hlast : s.q_depth.getLast? = some k := by
    rw [hrange, List.getLast?_concat]
  have hcount : s.q_queue k ≤ F.length := by
    have : csum s.q_queue (k + 1) = csum s.q_queue k + s.q_queue k := rfl
    rw [hklen] at hcs
    omega
  have hdrop : (F ++ [rootFrame]).drop (s.q_queue k) =
      F.drop (s.q_queue k) ++ [rootFrame] :=
    List.drop_append_of_le_length hcount
  refine ⟨{ s with
      transform_stack := (s.transform_stack.dropWhile taggedFrame).drop (s.q_queue k)
      q_depth := s.q_depth.dropLast
      q_queue := fun j => if j = k then 0 else s.q_queue j }, ?_, ?_, ?_⟩
  · simp [remove_q, reset_tm, hlast]
  · refine ⟨?_, ?_, F.drop (s.q_queue k), ?_, ?_, ?_⟩
    · show s.q_depth.dropLast = List.range s.q_depth.dropLast.length
      rw [hrange, List.dropLast_concat, List.length_range]
    · intro j hj
      show (if j = k then 0 else s.q_queue j) = 0
      by_cases hjk : j = k
      · simp [hjk]
      · have hjlen : s.q_depth.length ≤ j := by
          have : s.q_depth.dropLast.length = k := by
            rw [hrange, List.dropLast_concat, List.length_range]
          rw [this] at hj
          omega
        simp [hjk, h2 j hjlen]
    · show (((s.transform_stack.dropWhile taggedFrame).drop (s.q_queue k)).dropWhile
          taggedFrame) = F.drop (s.q_queue k) ++ [rootFrame]
      rw [hF, hdrop]
      apply dropWhile_eq_self_of_none
      intro fr hfr
      rcases List.mem_append.mp hfr with hfr | hfr
      · exact hFun fr (List.mem_of_mem_drop hfr)
      · rcases List.mem_singleton.mp hfr with rfl
        rfl
    · intro fr hfr
      exact hFun fr (List.mem_of_mem_drop hfr)
    · show csum (fun j => if j = k then 0 else s.q_queue j) s.q_depth.dropLast.length ≤
        (F.drop (s.q_queue k)).length
      have hlen' : s.q_depth.dropLast.length = k := by
        rw [hrange, List.dropLast_concat, List.length_range]
      rw [hlen']
      have hcg : csum (fun j => if j = k then 0 else s.q_queue j) k = csum s.q_queue k := by
        apply csum_congr
        intro j hj
        have : ¬(j = k) := by omega
        simp [this]
      rw [hcg, List.length_drop]
      have : csum s.q_queue (k + 1) = csum s.q_queue k + s.q_queue k := rfl
      rw [hklen] at hcs
      omega
  · show s.q_depth.dropLast.length + 1 = s.q_depth.length
    rw [hrange, List.dropLast_concat, List.length_range]
    simp


theorem invQ_of_eq_fields (s s' : State) (h : InvQ s)
    (hst : s'.transform_stack.dropWhile taggedFrame = s.transform_stack.dropWhile taggedFrame)
    (hdep : s'.q_depth = s.q_depth) (hqq : s'.q_queue = s.q_queue) : InvQ s' := by
  obtain ⟨hd, h2, F, hF, hFun, hcs⟩ := h
  exact ⟨by rw [hdep]; exact hd, by rw [hdep, hqq]; exact h2, F,
    by rw [hst]; exact hF, hFun, by rw [hdep, hqq]; exact hcs⟩

theorem invQ_add_tm (s : State) (h : InvQ s) (operands : List ℚ) :
    InvQ (add_tm s operands) := by
  apply invQ_of_eq_fields s _ h _ rfl rfl
  show (frameOfOperands operands true false :: s.transform_stack).dropWhile taggedFrame =
    s.transform_stack.dropWhile taggedFrame
  rw [List.dropWhile_cons]
  simp [taggedFrame, frameOfOperands]

theorem invQ_add_trm (s : State) (h : InvQ s) (operands : List ℚ) :
    InvQ (add_trm s operands) := by
  apply invQ_of_eq_fields s _ h _ rfl rfl
  show (frameOfOperands operands true true :: s.transform_stack).dropWhile taggedFrame =
    s.transform_stack.dropWhile taggedFrame
  rw [List.dropWhile_cons]
  simp [taggedFrame, frameOfOperands]

theorem invQ_reset_tm (s : State) (h : InvQ s) : InvQ (reset_tm s) := by
  refine invQ_of_eq_fields s (reset_tm s) h ?_ rfl rfl
  exact dropWhile_dropWhile_of_imp taggedFrame taggedFrame (fun x hx => hx) s.transform_stack

theorem invQ_reset_trm (s : State) (h : InvQ s) : InvQ (reset_trm s) := by
  refine invQ_of_eq_fields s (reset_trm s) h ?_ rfl rfl
  exact dropWhile_dropWhile_of_imp (fun fr => fr.is_render) taggedFrame
    (fun x hx => by simp [taggedFrame, hx]) s.transform_stack

theorem set_state_param_stack (s : State) (op : String) (v : PyNumOrList) :
    (set_state_param s op v).transform_stack = s.transform_stack := by
  unfold set_state_param
  repeat' split
  all_goals rfl

theorem set_state_param_q_depth (s : State) (op : String) (v : PyNumOrList) :
    (set_state_param s op v).q_depth = s.q_depth := by
  unfold set_state_param
  repeat' split
  all_goals rfl

theorem set_state_param_q_queue (s : State) (op : String) (v : PyNumOrList) :
    (set_state_param s op v).q_queue = s.q_queue := by
  unfold set_state_param
  repeat' split
  all_goals rfl

theorem invQ_set_state_param (s : State) (h : InvQ s) (op : String) (v : PyNumOrList) :
    InvQ (set_state_param s op v) :=
  invQ_of_eq_fields s _ h (by rw [set_state_param_stack])
    (set_state_param_q_depth s op v) (set_state_param_q_queue s op v)


theorem add_cm_ops_wf (s : State) (operands : List ℚ) (h : operands.length ≤ 6) :
    add_cm_ops s operands = some (add_cm s (operands.getD 0 1) (operands.getD 1 0)
      (operands.getD 2 0) (operands.getD 3 1) (operands.getD 4 0) (operands.getD 5 0)) := by
  have h6 : operands.getD 6 0 = 0 := List.getD_eq_default _ _ (by omega)
  have h7 : operands.getD 7 0 = 0 := List.getD_eq_default _ _ (by omega)
  unfold add_cm_ops add_cm cmFrame
  rw [if_neg (by omega), h6, h7]
  simp

theorem add_tm_ops_wf (s : State) (operands : List ℚ)
    (h : (complete_matrix operands).length ≤ 6) :
    add_tm_ops s operands = some (add_tm s operands) := by
  unfold add_tm_ops
  rw [if_neg (by omega)]

theorem add_trm_ops_wf (s : State) (operands : List ℚ)
    (h : (complete_matrix operands).length ≤ 6) :
    add_trm_ops s operands = some (add_trm s operands) := by
  unfold add_trm_ops
  rw [if_neg (by omega)]

theorem set_state_param_op_wf (s : State) (name : String) (value : PyNumOrList)
    (h : wfOp (Op.opSet name value) = true) :
    set_state_param_op s name value = some (set_state_param s name value) := by
  unfold set_state_param_op
  by_cases hmem : name ∈ (["Tc", "Tz", "Tw", "TL", "Ts"] : List String)
  · rw [if_pos hmem]
    cases value with
    | num v => rfl
    | arr l =>
        cases l with
        | nil =>
            exfalso
            simp only [wfOp, decide_eq_true_eq] at h
            exact h hmem
        | cons x xs => rfl
  · rw [if_neg hmem]
    simp [set_state_param, hmem]

theorem runQ_inv (prog : List Op) : ∀ s : State, InvQ s →
    (∀ o ∈ prog, wfOp o = true) →
    (∀ n, n ≤ prog.length →
      countClose (prog.take n) ≤ countOpen (prog.take n) + s.q_depth.length) →
    ∃ s', run prog s = some s' ∧ InvQ s' ∧
      s'.q_depth.length + countClose prog = s.q_depth.length + countOpen prog := by
  induction prog with
  | nil =>
      intro s h _ _
      exact ⟨s, rfl, h, rfl⟩
  | cons op rest ih =>
      intro s h hwf hb
      have hwfhd : wfOp op = true := hwf op (List.mem_cons_self op rest)
      have hwf' : ∀ o ∈ rest, wfOp o = true :=
        fun o ho => hwf o (List.mem_cons_of_mem op ho)
      have hbsucc : ∀ n, n ≤ rest.length →
          countClose ((op :: rest).take (n + 1)) ≤
            countOpen ((op :: rest).take (n + 1)) + s.q_depth.length := by
        intro n hn
        exact hb (n + 1) (by simpa using Nat.succ_le_succ hn)
      cases op with
      | opq =>
          obtain ⟨h1, hlen⟩ := invQ_add_q s h
          have hb' : ∀ n, n ≤ rest.length →
              countClose (rest.take n) ≤ countOpen (rest.take n) + (add_q s).q_depth.length := by
            intro n hn
            have := hbsucc n hn
            simp [List.take_succ_cons, countClose, countOpen, List.countP_cons, hlen] at this ⊢
            omega
          obtain ⟨s', hrun, hinv, hacc⟩ := ih (add_q s) h1 hwf' hb'
          refine ⟨s', by simpa [run, step] using hrun, hinv, ?_⟩
          rw [hlen] at hacc
          simp [countClose, countOpen, List.countP_cons] at hacc ⊢
          omega
      | opQ =>
          have hne : s.q_depth ≠ [] := by
            have h1 := hb 1 (by simp)
            simp [countClose, countOpen, List.countP_cons] at h1
            intro hnil
            rw [hnil] at h1
            simp at h1
          obtain ⟨s₁, hs₁, hinv₁, hlen₁⟩ := invQ_remove_q s h hne
          have hb' : ∀ n, n ≤ rest.length →
              countClose (rest.take n) ≤ countOpen (rest.take n) + s₁.q_depth.length := by
            intro n hn
            have := hbsucc n hn
            simp [List.take_succ_cons, countClose, countOpen, List.countP_cons] at this ⊢
            omega
          obtain ⟨s', hrun, hinv, hacc⟩ := ih s₁ hinv₁ hwf' hb'
          refine ⟨s', ?_, hinv, ?_⟩
          · simp only [run, step, hs₁]
            exact hrun
          · simp [countClose, countOpen, List.countP_cons] at hacc ⊢
            omega
      | opcm operands =>
          have hlen6 : operands.length ≤ 6 := by simpa [wfOp] using hwfhd
          obtain ⟨h1, hlen⟩ := invQ_add_cm s h (operands.getD 0 1) (operands.getD 1 0)
            (operands.getD 2 0) (operands.getD 3 1) (operands.getD 4 0) (operands.getD 5 0)
          have hb' : ∀ n, n ≤ rest.length →
              countClose (rest.take n) ≤
                countOpen (rest.take n) + (add_cm s (operands.getD 0 1) (operands.getD 1 0)
                  (operands.getD 2 0) (operands.getD 3 1) (operands.getD 4 0)
                  (operands.getD 5 0)).q_depth.length := by
            intro n hn
            have := hbsucc n hn
            rw [hlen]
            simp [List.take_succ_cons, countClose, countOpen, List.countP_cons] at this ⊢
            omega
          obtain ⟨s', hrun, hinv, hacc⟩ := ih _ h1 hwf' hb'
          refine ⟨s', ?_, hinv, ?_⟩
          · simp only [run, step, add_cm_ops_wf s operands hlen6]
            exact hrun
          · rw [hlen] at hacc
            simp [countClose, countOpen, List.countP_cons] at hacc ⊢
            omega
      | optm operands =>
          have hlen6 : (complete_matrix operands).length ≤ 6 := by simpa [wfOp] using hwfhd
          have h1 := invQ_add_tm s h operands
          have hlen : (add_tm s operands).q_depth.length = s.q_depth.length := rfl
          have hb' : ∀ n, n ≤ rest.length →
              countClose (rest.take n) ≤
                countOpen (rest.take n) + (add_tm s operands).q_depth.length := by
            intro n hn
            have := hbsucc n hn
            simp [List.take_succ_cons, countClose, countOpen, List.countP_cons, hlen] at this ⊢
            omega
          obtain ⟨s', hrun, hinv, hacc⟩ := ih _ h1 hwf' hb'
          refine ⟨s', ?_, hinv, ?_⟩
          · simp only [run, step, add_tm_ops_wf s operands hlen6]
            exact hrun
          · rw [hlen] at hacc
            simp [countClose, countOpen, List.countP_cons] at hacc ⊢
            omega
      | optrm operands =>
          have hlen6 : (complete_matrix operands).length ≤ 6 := by simpa [wfOp] using hwfhd
          have h1 := invQ_add_trm s h operands
          have hlen : (add_trm s operands).q_depth.length = s.q_depth.length := rfl
          have hb' : ∀ n, n ≤ rest.length →
              countClose (rest.take n) ≤
                countOpen (rest.take n) + (add_trm s operands).q_depth.length := by
            intro n hn
            have := hbsucc n hn
            simp [List.take_succ_cons, countClose, countOpen, List.countP_cons, hlen] at this ⊢
            omega
          obtain ⟨s', hrun, hinv, hacc⟩ := ih _ h1 hwf' hb'
          refine ⟨s', ?_, hinv, ?_⟩
          · simp only [run, step, add_trm_ops_wf s operands hlen6]
            exact hrun
          · rw [hlen] at hacc
            simp [countClose, countOpen, List.countP_cons] at hacc ⊢
            omega
      | opResetTm =>
          have h1 := invQ_reset_tm s h
          have hlen : (reset_tm s).q_depth.length = s.q_depth.length := rfl
          have hb' : ∀ n, n ≤ rest.length →
              countClose (rest.take n) ≤
                countOpen (rest.take n) + (reset_tm s).q_depth.length := by
            intro n hn
            have := hbsucc n hn
            simp [List.take_succ_cons, countClose, countOpen, List.countP_cons, hlen] at this ⊢
            omega
          obtain ⟨s', hrun, hinv, hacc⟩ := ih _ h1 hwf' hb'
          refine ⟨s', by simpa [run, step] using hrun, hinv, ?_⟩
          rw [hlen] at hacc
          simp [countClose, countOpen, List.countP_cons] at hacc ⊢
          omega
      | opResetTrm =>
          have h1 := invQ_reset_trm s h
          have hlen : (reset_trm s).q_depth.length = s.q_depth.length := rfl
          have hb' : ∀ n, n ≤ rest.length →
              countClose (rest.take n) ≤
                countOpen (rest.take n) + (reset_trm s).q_depth.length := by
            intro n hn
            have := hbsucc n hn
            simp [List.take_succ_cons, countClose, countOpen, List.countP_cons, hlen] at this ⊢
            omega
          obtain ⟨s', hrun, hinv, hacc⟩ := ih _ h1 hwf' hb'
          refine ⟨s', by simpa [run, step] using hrun, hinv, ?_⟩
          rw [hlen] at hacc
          simp [countClose, countOpen, List.countP_cons] at hacc ⊢
          omega
      | opSet name value =>
          have h1 := invQ_set_state_param s h name value
          have hlen : (set_state_param s name value).q_depth.length = s.q_depth.length := by
            rw [set_state_param_q_depth]
          have hb' : ∀ n, n ≤ rest.length →
              countClose (rest.take n) ≤
                countOpen (rest.take n) + (set_state_param s name value).q_depth.length := by
            intro n hn
            have := hbsucc n hn
            simp [List.take_succ_cons, countClose, countOpen, List.countP_cons, hlen] at this ⊢
            omega
          obtain ⟨s', hrun, hinv, hacc⟩ := ih _ h1 hwf' hb'
          refine ⟨s', ?_, hinv, ?_⟩
          · simp only [run, step, set_state_param_op_wf s name value hwfhd]
            exact hrun
          · rw [hlen] at hacc
            simp [countClose, countOpen, List.countP_cons] at hacc ⊢
            omega

/-- Claim C10 — counterexample.  The sequence `q; cm(1,0,0,1,0,0,1); Q`
respects the closeScope bound at every point and completes without error,
yet the root identity frame IS removed: the seven-operand cm (accepted by
`add_cm(*args)`) puts 1 into the `is_text` slot, the frame is counted in
`q_queue` but popped early by `remove_q`'s `reset_tm`, and the subsequent
slice `maps[1:]` cuts off the root, leaving an empty stack. -/
theorem c10_counterexample :
    (∀ n, n ≤ c10CexProg.length →
      countClose (c10CexProg.take n) ≤ countOpen (c10CexProg.take n) + 1) ∧
    (run c10CexProg initState).map (fun s => s.transform_stack) = some [] := by
  constructor
  · decide
  · decide

/-- Claim C10 (amended): for every operator sequence with well-formed
operands — each cm carrying at most six operands (as every content-stream
cm does), each text-matrix operand list completing to at most six entries,
and each recognized scalar operator a number or non-empty list operand —
in which, at each point, the number of closeScope calls does not exceed the
number of prior openScope calls plus one, the run completes without error
and the root identity frame is never removed: the final stack still ends
with the root frame (and so does every intermediate stack, each being the
final state of a prefix, which satisfies the same bound); and when the
sequence has used up its whole budget (closeScope count equal to openScope
count plus one), the next closeScope fails — `q_depth` is empty and
`remove_q` raises `IndexError` popping the empty scope-identifier list,
modelled as `none`.  Without the operand restriction the property fails: a
seven-operand cm yields a tagged counted frame whose early pop lets the
close slice off the root (see the counterexample), and over-long or empty
operand lists raise `TypeError` / `IndexError` mid-sequence. -/
theorem c10_close_scope_safety (prog : List Op)
    (hwf : ∀ o ∈ prog, wfOp o = true)
    (hb : ∀ n, n ≤ prog.length → countClose (prog.take n) ≤ countOpen (prog.take n) + 1) :
    ∃ s', run prog initState = some s' ∧
      s'.transform_stack.getLast? = some rootFrame ∧
      (countClose prog = countOpen prog + 1 → remove_q s' = none) := by
  have hlen : initState.q_depth.length = 1 := rfl
  obtain ⟨s', hrun, hinv, hacc⟩ := runQ_inv prog initState invQ_initState hwf
    (fun n hn => by rw [hlen]; exact hb n hn)
  obtain ⟨hd, h2, F, hF, hFun, hcs⟩ := hinv
  refine ⟨s', hrun, ?_, ?_⟩
  · have hsplit : s'.transform_stack =
        s'.transform_stack.takeWhile taggedFrame ++ (F ++ [rootFrame]) := by
      conv_lhs =>
        rw [← List.takeWhile_append_dropWhile (p := taggedFrame) (l := s'.transform_stack)]
      rw [hF]
    rw [hsplit, ← List.append_assoc, List.getLast?_concat]
  · intro hcc
    have hlen0 : s'.q_depth.length = 0 := by
      rw [hlen, hcc] at hacc
      omega
    have hnil : s'.q_depth = [] := List.length_eq_zero.mp hlen0
    simp [remove_q, reset_tm, hnil]

/-- Claim C10 — witness at the sequence `q; cm(2,0,0,2,0,0); Q; Q`: all
operands are well-formed, the bound holds at every prefix (the second Q is
the one-beyond-balance close the initial root scope permits), the run
succeeds, and the budget-exhaustion implication is exercised since
closeScope count = openScope count + 1. -/
theorem c10_witness :
    (∀ o ∈ c10Prog, wfOp o = true) ∧
    (∀ n, n ≤ c10Prog.length →
      countClose (c10Prog.take n) ≤ countOpen (c10Prog.take n) + 1) ∧
    ∃ s', run c10Prog initState = some s' ∧
      s'.transform_stack.getLast? = some rootFrame ∧
      (countClose c10Prog = countOpen c10Prog + 1 → remove_q s' = none) :=
  ⟨by decide, by decide, c10_close_scope_safety c10Prog (by decide) (by decide)⟩

end Pypdf
